import Mathlib

/-!
Verification development for the tootles media preview subsystem
(`src/tootles/media/`): the tiered cache (`cache.py`), the format
classifier (`formats.py`), the async loader (`loader.py`), the manager
facade (`manager.py`) and the external viewer dispatcher (`external.py`).

The Python code is shallowly embedded: every class becomes a structure,
every method a pure function from state to state (asyncio locks serialise
each method, so a method call is one atomic state transition); `bytes`
payloads become `List Nat`; Python `dict`s become insertion-ordered
association lists; the wall clock `time.time()` becomes a strictly
increasing logical counter carried in the state; fallible operations
return `Except`; external effects (HTTP responses, `mimetypes.guess_type`,
`shutil.which`, subprocess launches, disk-write success) are oracle
parameters.
-/

namespace Tootles

/-- A byte string (`bytes` in Python). Only identity and length matter. -/
abbrev Bytes := List Nat

/-! ### Python `dict` as an insertion-ordered association list

CPython dicts preserve insertion order; assignment to an existing key
overwrites the value in place, `del` removes the (unique) binding.
All caches in `cache.py` use `str` keys. -/

/-- `d[k]` / `d.get(k)`: first (and, for Nodup keys, only) binding of `k`. -/
def dictLookup (l : List (String × α)) (k : String) : Option α :=
  match l with
  | [] => none
  | (k', v) :: rest => if k' = k then some v else dictLookup rest k

/-- `d[k] = v`: overwrite in place if present, else append. -/
def dictInsert (l : List (String × α)) (k : String) (v : α) : List (String × α) :=
  match l with
  | [] => [(k, v)]
  | (k', v') :: rest =>
      if k' = k then (k, v) :: rest else (k', v') :: dictInsert rest k v

/-- `del d[k]`: remove the first binding of `k` (the only one, for dicts). -/
def dictErase (l : List (String × α)) (k : String) : List (String × α) :=
  match l with
  | [] => []
  | (k', v') :: rest => if k' = k then rest else (k', v') :: dictErase rest k

@[simp] theorem dictLookup_nil (k : String) :
    dictLookup ([] : List (String × α)) k = none := rfl

@[simp] theorem dictLookup_dictInsert (l : List (String × α)) (k : String) (v : α) :
    dictLookup (dictInsert l k v) k = some v := by
  induction l with
  | nil => simp [dictInsert, dictLookup]
  | cons hd tl ih =>
      obtain ⟨k', v'⟩ := hd
      by_cases h : k' = k
      · simp [dictInsert, dictLookup, h]
      · simp [dictInsert, dictLookup, h, ih]

theorem dictLookup_dictInsert_ne (l : List (String × α)) (k k' : String) (v : α)
    (h : k ≠ k') : dictLookup (dictInsert l k v) k' = dictLookup l k' := by
  induction l with
  | nil => simp [dictInsert, dictLookup, h]
  | cons hd tl ih =>
      obtain ⟨k0, v0⟩ := hd
      by_cases h0 : k0 = k
      · subst h0
        simp [dictInsert, dictLookup, h]
      · simp [dictInsert, dictLookup, h0, ih]

/-! ### `MemoryCache` (`cache.py` lines 20-93)

The cache entry dict `{'data': …, 'size': …, 'timestamp': …}` always has
`size == len(data)` (both are set once, from the same `data`), and
`timestamp` is read nowhere, so an entry is embedded as its `data`.
`current_size` is a Python `int` that `set` increments and `_evict_lru`
decrements, so it is embedded as `Int`.  `clock` models `time.time()` as a
strictly increasing counter, bumped once per timestamping operation. -/

structure MemoryCache where
  maxsize : Nat
  cache : List (String × Bytes)
  access_times : List (String × Nat)
  current_size : Int
  clock : Nat
  deriving Repr, DecidableEq

/-- `MemoryCache.__init__(maxsize)`: budget is megabytes, stored in bytes. -/
def mkMemoryCache (maxsizeMB : Nat) : MemoryCache :=
  { maxsize := maxsizeMB * 1024 * 1024
    cache := []
    access_times := []
    current_size := 0
    clock := 0 }

/-- Sum of `len(data)` over live entries: the actual resident byte count. -/
def MemoryCache.totalSize (c : MemoryCache) : Nat :=
  (c.cache.map (fun e => e.2.length)).sum

/-- `MemoryCache.get`: on a hit, refresh the access timestamp. -/
def MemoryCache.get (c : MemoryCache) (key : String) : Option Bytes × MemoryCache :=
  match dictLookup c.cache key with
  | some data =>
      (some data,
        { c with access_times := dictInsert c.access_times key c.clock
                 clock := c.clock + 1 })
  | none => (none, c)

/-- `min(access_times.keys(), key=lambda k: access_times[k])`: the first
key (in dict order) attaining the minimal access time, with its time. -/
def minAccessKey : List (String × Nat) → Option (String × Nat)
  | [] => none
  | (k, t) :: rest =>
      match minAccessKey rest with
      | none => some (k, t)
      | some (k', t') => if t ≤ t' then some (k, t) else some (k', t')

/-- `MemoryCache._evict_lru`: drop the least-recently-accessed entry. -/
def MemoryCache.evict_lru (c : MemoryCache) : MemoryCache :=
  match minAccessKey c.access_times with
  | none => c
  | some (lru_key, _) =>
      match dictLookup c.cache lru_key with
      | some entry =>
          { c with current_size := c.current_size - entry.length
                   cache := dictErase c.cache lru_key
                   access_times := dictErase c.access_times lru_key }
      | none => c

/-- The `while current_size + data_size > maxsize and len(cache) > 0` loop
of `MemoryCache.set`, fuelled; `set` supplies fuel `cache.length`, which
is exactly enough for the loop to reach its exit condition on any state
whose two dicts hold the same keys (`evictLoop_exit`). -/
def MemoryCache.evictLoop : Nat → Nat → MemoryCache → MemoryCache
  | 0, _, c => c
  | fuel + 1, data_size, c =>
      if c.current_size + data_size > c.maxsize ∧ c.cache ≠ [] then
        MemoryCache.evictLoop fuel data_size c.evict_lru
      else c

/-- `MemoryCache.set`: evict LRU entries until the new item fits, then
store it only if it fits the total budget at all. -/
def MemoryCache.set (c : MemoryCache) (key : String) (data : Bytes) : MemoryCache :=
  let data_size := data.length
  let c1 := MemoryCache.evictLoop c.cache.length data_size c
  if data_size ≤ c1.maxsize then
    { c1 with cache := dictInsert c1.cache key data
              access_times := dictInsert c1.access_times key c1.clock
              clock := c1.clock + 1
              current_size := c1.current_size + data_size }
  else c1

/-- `MemoryCache.clear`. -/
def MemoryCache.clear (c : MemoryCache) : MemoryCache :=
  { c with cache := [], access_times := [], current_size := 0 }

/-- Well-formedness maintained by every reachable `MemoryCache` state:
both dicts have duplicate-free keys and hold exactly the same keys. -/
def MemoryCache.WF (c : MemoryCache) : Prop :=
  (c.cache.map Prod.fst).Nodup ∧ (c.access_times.map Prod.fst).Nodup ∧
    ∀ k, (dictLookup c.cache k).isSome = (dictLookup c.access_times k).isSome

/-- The reachable-state invariant: well-formed dicts, the tracked
`current_size` at least the resident byte count (duplicate-key `set`s can
inflate the tracked figure, never deflate it), resident bytes within the
budget. -/
def MemoryCache.Inv (c : MemoryCache) : Prop :=
  c.WF ∧ (MemoryCache.totalSize c : Int) ≤ c.current_size ∧
    MemoryCache.totalSize c ≤ c.maxsize

/-- A client-visible operation on the memory tier. -/
inductive CacheOp where
  | setOp (key : String) (data : Bytes)
  | getOp (key : String)
  deriving Repr

def MemoryCache.applyOp (c : MemoryCache) : CacheOp → MemoryCache
  | CacheOp.setOp k d => c.set k d
  | CacheOp.getOp k => (c.get k).2

def MemoryCache.applyOps (c : MemoryCache) : List CacheOp → MemoryCache
  | [] => c
  | op :: ops => (c.applyOp op).applyOps ops

/-! ### `DiskCache` (`cache.py` lines 96-237)

The on-disk state is a map from filenames to files.  `_get_cache_path`
passes the key through SHA-256, which the spec treats as collision-free,
so the embedding uses the key itself as the `.cache` filename; the
`.tmp` sibling files live in a second map (`glob("*.cache")` never sees
them).  Each file carries its content and its last-access time
(`st_atime`), modelled by the same strictly increasing logical clock.
`MediaCacheError` is the error raised by a failed `set`. -/

structure DiskFile where
  content : Bytes
  atime : Nat
  deriving Repr, DecidableEq

structure DiskCache where
  max_size : Nat
  files : List (String × DiskFile)
  tmp : List (String × Bytes)
  clock : Nat
  deriving Repr, DecidableEq

inductive MediaCacheError where
  | failedToCache
  deriving Repr, DecidableEq

/-- `DiskCache.__init__(cache_dir, max_size_mb)` on a fresh directory. -/
def mkDiskCache (maxSizeMB : Nat) : DiskCache :=
  { max_size := maxSizeMB * 1024 * 1024, files := [], tmp := [], clock := 0 }

/-- `DiskCache._get_cache_size`: sum of `.cache` file sizes. -/
def DiskCache.cacheSize (files : List (String × DiskFile)) : Nat :=
  (files.map (fun e => e.2.content.length)).sum

/-- `DiskCache.get` (read always succeeds in this model): on a hit the
content is returned and the file's access time is refreshed (`touch`). -/
def DiskCache.get (c : DiskCache) (key : String) : Option Bytes × DiskCache :=
  match dictLookup c.files key with
  | some f =>
      (some f.content,
        { c with files := dictInsert c.files key ⟨f.content, c.clock⟩
                 clock := c.clock + 1 })
  | none => (none, c)

/-- Stable insertion into a list sorted by ascending `atime`
(`cache_files.sort(key=lambda x: x[1])`). -/
def insertByAtime (x : String × DiskFile) :
    List (String × DiskFile) → List (String × DiskFile)
  | [] => [x]
  | y :: ys =>
      if x.2.atime < y.2.atime then x :: y :: ys else y :: insertByAtime x ys

/-- The cache file listing sorted by ascending access time. -/
def sortByAtime : List (String × DiskFile) → List (String × DiskFile)
  | [] => []
  | x :: xs => insertByAtime x (sortByAtime xs)

/-- The deletion loop of `DiskCache._cleanup_if_needed`: walk the files in
ascending access-time order, stopping as soon as the new payload fits,
unlinking otherwise and discounting the freed bytes from the running
`current_size`. -/
def cleanupLoop (max_size need : Nat) :
    List (String × DiskFile) → Int → List (String × DiskFile) →
      List (String × DiskFile)
  | [], _, files => files
  | (p, f) :: rest, cur, files =>
      if cur + need ≤ max_size then files
      else cleanupLoop max_size need rest (cur - f.content.length)
        (dictErase files p)

/-- `DiskCache._cleanup_if_needed(new_data_size)`. -/
def DiskCache.cleanup_if_needed (c : DiskCache) (need : Nat) : DiskCache :=
  let cur : Int := DiskCache.cacheSize c.files
  if cur + need > c.max_size then
    { c with files := cleanupLoop c.max_size need (sortByAtime c.files) cur c.files }
  else c

/-- `DiskCache.set`: clean up space, write the payload to the `.tmp`
sibling, rename it over the `.cache` filename.  `writeOk` is the oracle
for the temp-file write succeeding; on failure the temp file is unlinked
(`missing_ok=True`) and `MediaCacheError` is raised. -/
def DiskCache.set (c : DiskCache) (key : String) (data : Bytes)
    (writeOk : Bool) : Except MediaCacheError Unit × DiskCache :=
  let c1 := c.cleanup_if_needed data.length
  if writeOk then
    let c2 := { c1 with tmp := dictInsert c1.tmp key data }
    (Except.ok (),
      { c2 with tmp := dictErase c2.tmp key
                files := dictInsert c2.files key ⟨data, c2.clock⟩
                clock := c2.clock + 1 })
  else
    (Except.error MediaCacheError.failedToCache,
      { c1 with tmp := dictErase c1.tmp key })

/-- Every intermediate filesystem state a reader (or a crash) can observe
during `DiskCache.set`: the initial state, the state after each possible
cleanup progress is subsumed by `cleanup_if_needed` only ever deleting
files, the states in which the temp file holds each partial write
`data.take n`, and the final state after the rename. -/
def DiskCache.setCrashStates (c : DiskCache) (key : String) (data : Bytes) :
    List DiskCache :=
  let c1 := c.cleanup_if_needed data.length
  c :: c1 ::
    ((List.range (data.length + 1)).map fun n =>
      { c1 with tmp := dictInsert c1.tmp key (data.take n) }) ++
    [(c.set key data true).2]

/-! ### `MediaCache` (`cache.py` lines 240-332): the two-tier facade. -/

structure MediaCache where
  memory : MemoryCache
  disk : DiskCache
  deriving Repr, DecidableEq

/-- `MediaCache.__init__`. -/
def mkMediaCache (memoryMB diskMB : Nat) : MediaCache :=
  { memory := mkMemoryCache memoryMB, disk := mkDiskCache diskMB }

/-- `MediaCache._get_cache_key(url, is_thumbnail)`. -/
def MediaCache.cacheKey (url : String) (is_thumbnail : Bool) : String :=
  (if is_thumbnail then "thumb_" else "full_") ++ url

/-- `MediaCache.get_thumbnail`. -/
def MediaCache.get_thumbnail (m : MediaCache) (url : String) :
    Option Bytes × MediaCache :=
  let r := m.memory.get (MediaCache.cacheKey url true)
  (r.1, { m with memory := r.2 })

/-- `MediaCache.get_full_media`: memory first; `if data:` falls through to
disk both on a miss and on an empty (falsy) payload. -/
def MediaCache.get_full_media (m : MediaCache) (url : String) :
    Option Bytes × MediaCache :=
  let key := MediaCache.cacheKey url false
  let r := m.memory.get key
  if r.1.getD [] ≠ [] then (r.1, { m with memory := r.2 })
  else
    let r2 := (m.disk.get key)
    (r2.1, { m with memory := r.2, disk := r2.2 })

/-- `MediaCache.store_thumbnail`. -/
def MediaCache.store_thumbnail (m : MediaCache) (url : String) (data : Bytes) :
    MediaCache :=
  { m with memory := m.memory.set (MediaCache.cacheKey url true) data }

/-- `MediaCache.store_full_media`: payloads under 1 MiB go to the memory
tier, the rest to disk (whose write success is the `writeOk` oracle). -/
def MediaCache.store_full_media (m : MediaCache) (url : String) (data : Bytes)
    (writeOk : Bool) : Except MediaCacheError Unit × MediaCache :=
  let key := MediaCache.cacheKey url false
  if data.length < 1024 * 1024 then
    (Except.ok (), { m with memory := m.memory.set key data })
  else
    let r := m.disk.set key data writeOk
    (r.1, { m with disk := r.2 })

/-! ### Format classifier (`formats.py`)

`mimetypes.guess_type` consults a system table outside the repository, so
it is an oracle parameter `guess : String → Option String`.  Python's
`if mimetype:` and `if guessed_type:` are true exactly for a non-empty
string, which the embedding spells out. -/

inductive MediaFormat where
  | IMAGE
  | VIDEO
  | AUDIO
  | UNKNOWN
  deriving Repr, DecidableEq

def SUPPORTED_IMAGE_FORMATS : List String :=
  ["jpg", "jpeg", "png", "gif", "webp", "svg", "bmp", "tiff"]

def SUPPORTED_VIDEO_FORMATS : List String :=
  ["mp4", "webm", "mov", "avi", "mkv", "m4v", "ogv"]

def SUPPORTED_AUDIO_FORMATS : List String :=
  ["mp3", "ogg", "wav", "m4a", "aac", "flac", "opus"]

def IMAGE_MIMETYPES : List String :=
  ["image/jpeg", "image/png", "image/gif", "image/webp",
   "image/svg+xml", "image/bmp", "image/tiff"]

def VIDEO_MIMETYPES : List String :=
  ["video/mp4", "video/webm", "video/quicktime", "video/x-msvideo",
   "video/x-matroska", "video/ogg"]

def AUDIO_MIMETYPES : List String :=
  ["audio/mpeg", "audio/ogg", "audio/wav", "audio/mp4",
   "audio/aac", "audio/flac", "audio/opus"]

/-- Membership of a string in a list of strings (`in` on a `set[str]`),
written out structurally. -/
def strMem (s : String) : List String → Bool
  | [] => false
  | t :: ts => if s = t then true else strMem s ts

/-- `str.startswith(pre)`, written out structurally on characters. -/
def charsBeginWith : List Char → List Char → Bool
  | [], _ => true
  | _ :: _, [] => false
  | p :: ps, c :: cs => if p = c then charsBeginWith ps cs else false

/-- The slash-separated components of a character list
(`'…'.split('/')`). -/
def splitOnSlash : List Char → List (List Char)
  | [] => [[]]
  | c :: rest =>
      match splitOnSlash rest with
      | [] => [[c]]
      | g :: gs => if c = '/' then [] :: g :: gs else (c :: g) :: gs

/-- `pathlib.Path(url).name`: the last non-empty slash-separated
component. -/
def pathNameChars (url : String) : List Char :=
  ((splitOnSlash url.data).filter (fun s => s ≠ [])).getLastD []

/-- `name.rfind('.')`: the index of the last dot, if any. -/
def lastDotIdx : List Char → Option Nat
  | [] => none
  | c :: rest =>
      match lastDotIdx rest with
      | some i => some (i + 1)
      | none => if c = '.' then some 0 else none

/-- `pathlib.Path(url).suffix` (CPython: the slice of `name` from the
last dot, provided that dot is neither leading nor trailing). -/
def pathSuffixChars (url : String) : List Char :=
  let name := pathNameChars url
  match lastDotIdx name with
  | none => []
  | some i => if 0 < i ∧ i < name.length - 1 then name.drop i else []

/-- `str.lower()` on one character (ASCII, which covers the format
tables). -/
def lowerChar (c : Char) : Char :=
  if 'A' ≤ c ∧ c ≤ 'Z' then Char.ofNat (c.toNat + 32) else c

/-- `Path(url).suffix.lower().lstrip('.')`. -/
def urlExtension (url : String) : String :=
  String.mk (((pathSuffixChars url).map lowerChar).dropWhile
    (fun ch => ch = '.'))

/-- Steps (1) of `get_media_format`: classification by declared MIME type,
`none` when the mimetype is absent, empty, or in no known set. -/
def formatFromMimetype (mimetype : Option String) : Option MediaFormat :=
  match mimetype with
  | none => none
  | some mt =>
      if mt = "" then none
      else if strMem mt IMAGE_MIMETYPES then some MediaFormat.IMAGE
      else if strMem mt VIDEO_MIMETYPES then some MediaFormat.VIDEO
      else if strMem mt AUDIO_MIMETYPES then some MediaFormat.AUDIO
      else none

/-- Step (2): classification by the URL's file extension. -/
def formatFromExtension (url : String) : Option MediaFormat :=
  let extension := urlExtension url
  if strMem extension SUPPORTED_IMAGE_FORMATS then some MediaFormat.IMAGE
  else if strMem extension SUPPORTED_VIDEO_FORMATS then some MediaFormat.VIDEO
  else if strMem extension SUPPORTED_AUDIO_FORMATS then some MediaFormat.AUDIO
  else none

/-- Step (3): classification by the system MIME guess
(`mimetypes.guess_type(url)`), matching on the type's major part. -/
def formatFromGuess (guess : String → Option String) (url : String) :
    Option MediaFormat :=
  match guess url with
  | none => none
  | some g =>
      if g = "" then none
      else if charsBeginWith "image/".data g.data then some MediaFormat.IMAGE
      else if charsBeginWith "video/".data g.data then some MediaFormat.VIDEO
      else if charsBeginWith "audio/".data g.data then some MediaFormat.AUDIO
      else none

/-- `get_media_format(url, mimetype)` (`formats.py` lines 49-97): the
if/elif cascade, written as three falling-through steps.  The function is
total by construction — the `try/except` blocks of the source can only
fall through to the next step. -/
def get_media_format (guess : String → Option String) (url : String)
    (mimetype : Option String) : MediaFormat :=
  match formatFromMimetype mimetype with
  | some f => f
  | none =>
      match formatFromExtension url with
      | some f => f
      | none =>
          match formatFromGuess guess url with
          | some f => f
          | none => MediaFormat.UNKNOWN

/-- `is_supported_format(url, mimetype)`. -/
def is_supported_format (guess : String → Option String) (url : String)
    (mimetype : Option String) : Bool :=
  get_media_format guess url mimetype ≠ MediaFormat.UNKNOWN

/-- Modelled from the spec: the classifier contract of §4.2, written from
its words — "Resolution order: (1) exact MIME-type membership in a known
set per kind, (2) file-extension suffix membership in a known set per
kind, (3) best-effort system MIME guess from the URL, (4) UNKNOWN", each
failing step falling through to the next. -/
def specResolveFormat (guess : String → Option String) (url : String)
    (mimetype : Option String) : MediaFormat :=
  ((formatFromMimetype mimetype).orElse fun _ =>
    (formatFromExtension url).orElse fun _ =>
      formatFromGuess guess url).getD MediaFormat.UNKNOWN

/-! ### `MediaLoader` (`loader.py`)

The HTTP transport is an oracle: `clientInitialized` models
`self._client` being set, and the single request of `_download_media`
yields an `HttpResponse` (status, `content-length` header, body).
Thumbnail derivation (`_generate_thumbnail`, which swallows its own
errors and returns `None` on failure) is the oracle
`genThumb : Bytes → Option Bytes`. -/

inductive MediaLoadError where
  | clientNotInitialized
  | httpError
  | downloadFailed
  | loadFailed
  deriving Repr, DecidableEq

structure HttpResponse where
  ok : Bool
  content_length : Option Nat
  content : Bytes
  deriving Repr, DecidableEq

/-- `MediaLoader._download_media` (`loader.py` lines 138-164): raise if
the client is missing, raise on an HTTP error status, raise when the
`content-length` header announces more than 50 MiB (that raise is caught
by the function's own generic handler and re-wrapped, hence
`downloadFailed`), and otherwise return the response body — its actual
size is never checked. -/
def MediaLoader.download_media (clientInitialized : Bool)
    (resp : HttpResponse) : Except MediaLoadError Bytes :=
  if ¬ clientInitialized then Except.error MediaLoadError.clientNotInitialized
  else if ¬ resp.ok then Except.error MediaLoadError.httpError
  else
    match resp.content_length with
    | some n =>
        if n > 50 * 1024 * 1024 then Except.error MediaLoadError.downloadFailed
        else Except.ok resp.content
    | none => Except.ok resp.content

/-- `MediaLoader._is_image`. -/
def MediaLoader.is_image (guess : String → Option String) (url : String) :
    Bool :=
  get_media_format guess url none = MediaFormat.IMAGE

/-- `MediaLoader.load_media` (`loader.py` lines 51-95): thumbnail cache,
full cache, then download; a non-empty download is stored via
`store_full_media` and, for images with `prefer_thumbnail`, a derived
thumbnail is cached and returned instead.  Every exception inside the
download/store block — including a `MediaCacheError` from the disk store —
is re-raised as a `MediaLoadError` (`loadFailed`). -/
def MediaLoader.load_media (guess : String → Option String)
    (genThumb : Bytes → Option Bytes) (clientInitialized : Bool)
    (resp : HttpResponse) (writeOk : Bool) (m : MediaCache) (url : String)
    (prefer_thumbnail : Bool) :
    Except MediaLoadError (Option Bytes) × MediaCache :=
  let r0 := if prefer_thumbnail then m.get_thumbnail url else (none, m)
  if r0.1.getD [] ≠ [] then (Except.ok r0.1, r0.2)
  else
    let r1 := r0.2.get_full_media url
    if r1.1.getD [] ≠ [] then (Except.ok r1.1, r1.2)
    else
      match MediaLoader.download_media clientInitialized resp with
      | Except.error _ => (Except.error MediaLoadError.loadFailed, r1.2)
      | Except.ok data =>
          if data ≠ [] then
            let r2 := r1.2.store_full_media url data writeOk
            match r2.1 with
            | Except.error _ => (Except.error MediaLoadError.loadFailed, r2.2)
            | Except.ok _ =>
                if prefer_thumbnail ∧ MediaLoader.is_image guess url then
                  match genThumb data with
                  | some thumbnail =>
                      (Except.ok (some thumbnail),
                        r2.2.store_thumbnail url thumbnail)
                  | none => (Except.ok (some data), r2.2)
                else (Except.ok (some data), r2.2)
          else (Except.ok none, r1.2)

/-! ### `MediaManager.get_media_widget` (`manager.py` lines 54-88)

The widget value is abstracted to which of the three outcomes the method
returns; the `Bool` component records whether the Loader was touched
(`self._get_loader()` is only reached in the preload branch, after both
short circuits).  `loaderData` stands for whatever bytes the loader call
would produce (`None` when it raises — that exception is caught and
degrades to the rendered-widget path with no data). -/

structure MediaConfigModel where
  show_media_previews : Bool
  deriving Repr, DecidableEq

structure Attachment where
  url : String
  type : Option String
  deriving Repr, DecidableEq

inductive ManagerWidget where
  | disabledPlaceholder
  | genericPlaceholder
  | mediaWidget (data : Option Bytes)
  deriving Repr, DecidableEq

def MediaManager.get_media_widget (guess : String → Option String)
    (cfg : MediaConfigModel) (att : Attachment) (preload : Bool)
    (loaderData : Option Bytes) : ManagerWidget × Bool :=
  if ¬ cfg.show_media_previews then (ManagerWidget.disabledPlaceholder, false)
  else if ¬ is_supported_format guess att.url att.type then
    (ManagerWidget.genericPlaceholder, false)
  else if preload then (ManagerWidget.mediaWidget loaderData, true)
  else (ManagerWidget.mediaWidget none, false)

/-! ### `ExternalViewerManager` (`external.py`)

`shutil.which` is the oracle `which : String → Bool`; launching the
subprocess succeeds according to the oracle `launchOk`, and writing the
temporary file according to `tmpWriteOk`. -/

inductive ExternalViewerError where
  | openFailed
  deriving Repr, DecidableEq

/-- First available program of a candidate list. -/
def firstAvailable (which : String → Bool) : List String → Option String
  | [] => none
  | p :: ps => if which p then some p else firstAvailable which ps

/-- `dict.setdefault`-style helper for the `xdg-open` fallback
(`if 'image' not in viewers: viewers['image'] = 'xdg-open'`). -/
def setIfAbsent (l : List (String × String)) (k v : String) :
    List (String × String) :=
  match dictLookup l k with
  | some _ => l
  | none => dictInsert l k v

/-- `ExternalViewerManager._get_default_viewers` (`external.py` lines
32-62). -/
def get_default_viewers (which : String → Bool) : List (String × String) :=
  let v0 : List (String × String) := []
  let v1 :=
    match firstAvailable which ["feh", "eog", "xviewer", "gwenview", "ristretto"] with
    | some p => dictInsert v0 "image" p
    | none => v0
  let v2 :=
    match firstAvailable which ["mpv", "vlc", "mplayer", "totem"] with
    | some p => dictInsert (dictInsert v1 "video" p) "audio" p
    | none => v1
  if which "xdg-open" then
    setIfAbsent (setIfAbsent (setIfAbsent v2 "image" "xdg-open")
      "video" "xdg-open") "audio" "xdg-open"
  else v2

/-- `ExternalViewerManager.get_viewer_for_url`. -/
def get_viewer_for_url (guess : String → Option String)
    (viewers : List (String × String)) (url : String) : Option String :=
  match get_media_format guess url none with
  | MediaFormat.IMAGE => dictLookup viewers "image"
  | MediaFormat.VIDEO => dictLookup viewers "video"
  | MediaFormat.AUDIO => dictLookup viewers "audio"
  | MediaFormat.UNKNOWN => none

/-- `ExternalViewerManager._execute_viewer` (`external.py` lines 158-187):
returns `True` when the subprocess spawns; any launch exception is caught
inside the method, logged, and turned into a `False` return. -/
def execute_viewer (launchOk : Bool) : Bool :=
  launchOk

/-- `ExternalViewerManager.open_media` (`external.py` lines 84-108): no
(or falsy) viewer command means `False` with nothing raised; with payload
bytes, a temp file is written first and a write failure propagates out of
`_open_from_data` to be re-raised as `ExternalViewerError`; the launch
itself reports success as the boolean from `_execute_viewer`. -/
def open_media (guess : String → Option String)
    (viewers : List (String × String)) (tmpWriteOk launchOk : Bool)
    (url : String) (media_data : Option Bytes) :
    Except ExternalViewerError Bool :=
  match get_viewer_for_url guess viewers url with
  | none => Except.ok false
  | some viewer_cmd =>
      if viewer_cmd = "" then Except.ok false
      else
        if media_data.getD [] ≠ [] then
          if tmpWriteOk then Except.ok (execute_viewer launchOk)
          else Except.error ExternalViewerError.openFailed
        else Except.ok (execute_viewer launchOk)

/-! ### Concrete payloads used in the concrete evaluations below -/

/-- A response body one byte over the 50 MiB download limit. -/
def oversizedBody : Bytes := List.replicate (50 * 1024 * 1024 + 1) 0

/-- A payload of exactly 1 MiB — the smallest payload that
`store_full_media` routes to the disk tier. -/
def bigPayload : Bytes := List.replicate (1024 * 1024) 0

/-- A payload one byte over a 1 MB-configured tier budget. -/
def hugePayload : Bytes := List.replicate (1024 * 1024 + 1) 0

/-- A disk cache holding one 900000-byte file, reached by a single
successful `set` on a freshly constructed 1 MB cache. -/
def oldDisk : DiskCache := ((mkDiskCache 1).set "k" (List.replicate 900000 1) true).2

/-! ## Lemmas about the dict embedding -/

theorem dictLookup_mem {l : List (String × α)} {k : String} {v : α}
    (h : dictLookup l k = some v) : (k, v) ∈ l := by
  induction l with
  | nil => simp [dictLookup] at h
  | cons hd tl ih =>
      obtain ⟨k', v'⟩ := hd
      by_cases hk : k' = k
      · subst hk
        simp [dictLookup] at h
        simp [h]
      · simp [dictLookup, hk] at h
        exact List.mem_cons_of_mem _ (ih h)

theorem dictLookup_isSome_of_mem {l : List (String × α)} {k : String} {v : α}
    (h : (k, v) ∈ l) : (dictLookup l k).isSome := by
  induction l with
  | nil => simp at h
  | cons hd tl ih =>
      obtain ⟨k', v'⟩ := hd
      rcases List.mem_cons.mp h with h1 | h1
      · injection h1 with hk hv
        simp [dictLookup, hk.symm]
      · by_cases hk : k' = k
        · simp [dictLookup, hk]
        · simpa [dictLookup, hk] using ih h1

theorem dictLookup_of_mem_nodup {l : List (String × α)} {k : String} {v : α}
    (hnd : (l.map Prod.fst).Nodup) (h : (k, v) ∈ l) : dictLookup l k = some v := by
  induction l with
  | nil => simp at h
  | cons hd tl ih =>
      obtain ⟨k', v'⟩ := hd
      simp only [List.map_cons, List.nodup_cons] at hnd
      rcases List.mem_cons.mp h with h1 | h1
      · injection h1 with hk hv
        simp [dictLookup, hk, hv]
      · by_cases hk : k' = k
        · exfalso
          exact hnd.1 (hk ▸ (List.mem_map.mpr ⟨(k, v), h1, rfl⟩))
        · simpa [dictLookup, hk] using ih hnd.2 h1

theorem dictLookup_eq_none_iff {l : List (String × α)} {k : String} :
    dictLookup l k = none ↔ ∀ v, (k, v) ∉ l := by
  constructor
  · intro h v hv
    have := dictLookup_isSome_of_mem hv
    simp [h] at this
  · intro h
    cases hl : dictLookup l k with
    | none => rfl
    | some v => exact absurd (dictLookup_mem hl) (h v)

theorem dictErase_sublist (l : List (String × α)) (k : String) :
    List.Sublist (dictErase l k) l := by
  induction l with
  | nil => simp [dictErase]
  | cons hd tl ih =>
      obtain ⟨k', v'⟩ := hd
      by_cases hk : k' = k
      · simp only [dictErase, hk, if_true]
        exact List.sublist_cons_self _ _
      · simp only [dictErase, hk, if_false]
        exact List.Sublist.cons₂ _ ih

theorem dictErase_keys_nodup {l : List (String × α)} {k : String}
    (h : (l.map Prod.fst).Nodup) : ((dictErase l k).map Prod.fst).Nodup :=
  h.sublist ((dictErase_sublist l k).map Prod.fst)

theorem dictLookup_dictErase_self {l : List (String × α)} {k : String}
    (hnd : (l.map Prod.fst).Nodup) : dictLookup (dictErase l k) k = none := by
  induction l with
  | nil => simp [dictErase, dictLookup]
  | cons hd tl ih =>
      obtain ⟨k', v'⟩ := hd
      simp only [List.map_cons, List.nodup_cons] at hnd
      by_cases hk : k' = k
      · subst hk
        rw [dictLookup_eq_none_iff]
        intro v hv
        simp [dictErase] at hv
        exact hnd.1 (List.mem_map.mpr ⟨(k', v), hv, rfl⟩)
      · simpa [dictErase, dictLookup, hk] using ih hnd.2

theorem dictLookup_dictErase_ne {l : List (String × α)} {k k' : String}
    (h : k ≠ k') : dictLookup (dictErase l k) k' = dictLookup l k' := by
  induction l with
  | nil => simp [dictErase]
  | cons hd tl ih =>
      obtain ⟨k0, v0⟩ := hd
      by_cases hk : k0 = k
      · subst hk
        have hne : ¬ k0 = k' := fun hh => h hh
        simp [dictErase, dictLookup, hne]
      · simp [dictErase, dictLookup, hk, ih]

theorem dictErase_length {l : List (String × α)} {k : String} {v : α}
    (h : dictLookup l k = some v) :
    (dictErase l k).length + 1 = l.length := by
  induction l with
  | nil => simp [dictLookup] at h
  | cons hd tl ih =>
      obtain ⟨k', v'⟩ := hd
      by_cases hk : k' = k
      · simp [dictErase, hk]
      · simp only [dictLookup, hk, if_false] at h
        simp [dictErase, hk, ih h]

theorem dictErase_sum {l : List (String × Bytes)} {k : String} {v : Bytes}
    (h : dictLookup l k = some v) :
    ((dictErase l k).map (fun e => e.2.length)).sum + v.length =
      (l.map (fun e => e.2.length)).sum := by
  induction l with
  | nil => simp [dictLookup] at h
  | cons hd tl ih =>
      obtain ⟨k', v'⟩ := hd
      by_cases hk : k' = k
      · simp only [dictLookup, hk, if_true] at h
        obtain rfl := Option.some.injEq .. ▸ h
        simp [dictErase, hk]
        omega
      · simp only [dictLookup, hk, if_false] at h
        simp [dictErase, hk]
        have := ih h
        omega

theorem dictInsert_keys_of_present {l : List (String × α)} {k : String}
    (h : (dictLookup l k).isSome) (v : α) :
    (dictInsert l k v).map Prod.fst = l.map Prod.fst := by
  induction l with
  | nil => simp [dictLookup] at h
  | cons hd tl ih =>
      obtain ⟨k', v'⟩ := hd
      by_cases hk : k' = k
      · simp [dictInsert, hk]
      · simp only [dictLookup, hk, if_false] at h
        simp [dictInsert, hk, ih h]

theorem dictInsert_keys_of_absent {l : List (String × α)} {k : String}
    (h : dictLookup l k = none) (v : α) :
    (dictInsert l k v).map Prod.fst = l.map Prod.fst ++ [k] := by
  induction l with
  | nil => simp [dictInsert]
  | cons hd tl ih =>
      obtain ⟨k', v'⟩ := hd
      by_cases hk : k' = k
      · simp [dictLookup, hk] at h
      · simp only [dictLookup, hk, if_false] at h
        simp [dictInsert, hk, ih h]

theorem dictInsert_keys_nodup {l : List (String × α)} {k : String} {v : α}
    (h : (l.map Prod.fst).Nodup) : ((dictInsert l k v).map Prod.fst).Nodup := by
  cases hl : dictLookup l k with
  | some w => rw [dictInsert_keys_of_present (by simp [hl]) v]; exact h
  | none =>
      rw [dictInsert_keys_of_absent hl v]
      refine List.Nodup.append h (List.nodup_singleton k) ?_
      intro a ha hb
      simp only [List.mem_singleton] at hb
      obtain ⟨⟨k0, v0⟩, hm, hk0⟩ := List.mem_map.mp ha
      have hsome : (dictLookup l k).isSome := by
        have hk0' : k0 = k := by
          have : k0 = a := hk0
          rw [this, hb]
        exact dictLookup_isSome_of_mem (hk0' ▸ hm)
      simp [hl] at hsome

theorem dictInsert_sum_le (l : List (String × Bytes)) (k : String) (v : Bytes) :
    ((dictInsert l k v).map (fun e => e.2.length)).sum ≤
      (l.map (fun e => e.2.length)).sum + v.length := by
  induction l with
  | nil => simp [dictInsert]
  | cons hd tl ih =>
      obtain ⟨k', v'⟩ := hd
      by_cases hk : k' = k
      · simp [dictInsert, hk]
        omega
      · simp [dictInsert, hk]
        omega

/-! ## Lemmas about `minAccessKey` -/

theorem minAccessKey_eq_none_iff {l : List (String × Nat)} :
    minAccessKey l = none ↔ l = [] := by
  cases l with
  | nil => simp [minAccessKey]
  | cons hd tl =>
      obtain ⟨k, t⟩ := hd
      simp only [minAccessKey, List.cons_ne_nil, iff_false]
      cases minAccessKey tl with
      | none => simp
      | some p =>
          obtain ⟨k', t'⟩ := p
          by_cases h : t ≤ t' <;> simp [h]

theorem minAccessKey_mem {l : List (String × Nat)} {k : String} {t : Nat}
    (h : minAccessKey l = some (k, t)) : (k, t) ∈ l := by
  induction l with
  | nil => simp [minAccessKey] at h
  | cons hd tl ih =>
      obtain ⟨k0, t0⟩ := hd
      simp only [minAccessKey] at h
      cases hm : minAccessKey tl with
      | none =>
          rw [hm] at h
          simp at h
          simp [h]
      | some p =>
          obtain ⟨k', t'⟩ := p
          rw [hm] at h
          by_cases ht : t0 ≤ t'
          · simp [ht] at h
            simp [h]
          · simp [ht] at h
            obtain ⟨rfl, rfl⟩ := h
            exact List.mem_cons_of_mem _ (ih hm)

theorem minAccessKey_min {l : List (String × Nat)} {k : String} {t : Nat}
    (h : minAccessKey l = some (k, t)) : ∀ p ∈ l, t ≤ p.2 := by
  induction l generalizing k t with
  | nil => simp [minAccessKey] at h
  | cons hd tl ih =>
      obtain ⟨k0, t0⟩ := hd
      simp only [minAccessKey] at h
      cases hm : minAccessKey tl with
      | none =>
          rw [hm] at h
          rw [minAccessKey_eq_none_iff] at hm
          subst hm
          simp at h
          obtain ⟨rfl, rfl⟩ := h
          simp
      | some p =>
          obtain ⟨k', t'⟩ := p
          rw [hm] at h
          by_cases ht : t0 ≤ t'
          · simp [ht] at h
            obtain ⟨rfl, rfl⟩ := h
            intro p hp
            rcases List.mem_cons.mp hp with rfl | hp
            · rfl
            · exact le_trans ht (ih hm p hp)
          · simp [ht] at h
            obtain ⟨rfl, rfl⟩ := h
            intro p hp
            rcases List.mem_cons.mp hp with rfl | hp
            · omega
            · exact ih hm p hp

/-! ## Lemmas about `MemoryCache` -/

theorem access_times_nil_of_cache_nil {c : MemoryCache} (hWF : c.WF)
    (h : c.cache = []) : c.access_times = [] := by
  cases ha : c.access_times with
  | nil => rfl
  | cons hd tl =>
      obtain ⟨k, t⟩ := hd
      have h1 : (dictLookup c.access_times k).isSome :=
        dictLookup_isSome_of_mem (v := t) (by simp [ha])
      have h2 := (hWF.2.2 k).trans h1
      rw [h, dictLookup_nil] at h2
      simp at h2

theorem evict_lru_maxsize (c : MemoryCache) :
    c.evict_lru.maxsize = c.maxsize := by
  unfold MemoryCache.evict_lru
  cases hm : minAccessKey c.access_times with
  | none => rfl
  | some p =>
      obtain ⟨k, t⟩ := p
      cases he : dictLookup c.cache k <;> simp [he]

theorem evictLoop_maxsize (n : Nat) :
    ∀ (fuel : Nat) (c : MemoryCache),
      (MemoryCache.evictLoop fuel n c).maxsize = c.maxsize := by
  intro fuel
  induction fuel with
  | zero => intro c; rfl
  | succ fuel ih =>
      intro c
      unfold MemoryCache.evictLoop
      by_cases hg : c.current_size + n > c.maxsize ∧ c.cache ≠ []
      · rw [if_pos hg, ih, evict_lru_maxsize]
      · rw [if_neg hg]

/-- Behaviour of `_evict_lru` on a well-formed state with a non-empty
cache: one entry leaves both dicts, the tracked size drops by exactly
that entry's size, and well-formedness is preserved. -/
theorem evict_lru_spec (c : MemoryCache) (hWF : c.WF) (hne : c.cache ≠ []) :
    MemoryCache.WF c.evict_lru ∧
      c.evict_lru.cache.length + 1 = c.cache.length ∧
      c.evict_lru.clock = c.clock ∧
      (c.evict_lru.current_size - (MemoryCache.totalSize c.evict_lru : Int)
        = c.current_size - (MemoryCache.totalSize c : Int)) ∧
      MemoryCache.totalSize c.evict_lru ≤ MemoryCache.totalSize c := by
  obtain ⟨hnd1, hnd2, hsync⟩ := hWF
  -- the access-times dict is non-empty, so `minAccessKey` yields a key
  obtain ⟨⟨k0, v0⟩, tl, hc⟩ : ∃ hd tl, c.cache = hd :: tl := by
    cases hcc : c.cache with
    | nil => exact absurd hcc hne
    | cons hd tl => exact ⟨hd, tl, rfl⟩
  have hsome0 : (dictLookup c.cache k0).isSome :=
    dictLookup_isSome_of_mem (v := v0) (by simp [hc])
  have haccne : c.access_times ≠ [] := by
    intro hnil
    have := (hsync k0).symm.trans hsome0
    rw [hnil, dictLookup_nil] at this
    simp at this
  obtain ⟨k, t, hmin⟩ : ∃ k t, minAccessKey c.access_times = some (k, t) := by
    cases hm : minAccessKey c.access_times with
    | none => exact absurd (minAccessKey_eq_none_iff.mp hm) haccne
    | some p =>
        obtain ⟨k, t⟩ := p
        exact ⟨k, t, rfl⟩
  have hkacc : (dictLookup c.access_times k).isSome :=
    dictLookup_isSome_of_mem (minAccessKey_mem hmin)
  have hkcache : (dictLookup c.cache k).isSome := by
    rw [hsync k]; exact hkacc
  obtain ⟨entry, hentry⟩ : ∃ e, dictLookup c.cache k = some e :=
    Option.isSome_iff_exists.mp hkcache
  have hev : c.evict_lru =
      { c with current_size := c.current_size - entry.length
               cache := dictErase c.cache k
               access_times := dictErase c.access_times k } := by
    simp only [MemoryCache.evict_lru, hmin, hentry]
  rw [hev]
  have hsum := dictErase_sum hentry
  refine ⟨⟨dictErase_keys_nodup hnd1, dictErase_keys_nodup hnd2, ?_⟩, ?_, rfl, ?_, ?_⟩
  · intro k'
    by_cases hk' : k = k'
    · subst hk'
      rw [dictLookup_dictErase_self hnd1, dictLookup_dictErase_self hnd2]
      rfl
    · rw [dictLookup_dictErase_ne hk', dictLookup_dictErase_ne hk']
      exact hsync k'
  · exact dictErase_length hentry
  · show c.current_size - (entry.length : Int) -
        ((MemoryCache.totalSize { c with
          current_size := c.current_size - entry.length
          cache := dictErase c.cache k
          access_times := dictErase c.access_times k } : Nat) : Int)
      = c.current_size - (MemoryCache.totalSize c : Int)
    unfold MemoryCache.totalSize at hsum ⊢
    simp only
    omega
  · show MemoryCache.totalSize { c with
        current_size := c.current_size - entry.length
        cache := dictErase c.cache k
        access_times := dictErase c.access_times k }
      ≤ MemoryCache.totalSize c
    unfold MemoryCache.totalSize at hsum ⊢
    simp only
    omega

/-- Behaviour of the fuelled eviction loop when given fuel
`c.cache.length` (or more): it terminates exactly as the source's
`while` loop does, with its guard false. -/
theorem evictLoop_spec (n : Nat) :
    ∀ (fuel : Nat) (c : MemoryCache), c.WF → c.cache.length ≤ fuel →
      MemoryCache.WF (MemoryCache.evictLoop fuel n c) ∧
        (MemoryCache.evictLoop fuel n c).clock = c.clock ∧
        ((MemoryCache.evictLoop fuel n c).current_size
            - (MemoryCache.totalSize (MemoryCache.evictLoop fuel n c) : Int)
          = c.current_size - (MemoryCache.totalSize c : Int)) ∧
        MemoryCache.totalSize (MemoryCache.evictLoop fuel n c)
          ≤ MemoryCache.totalSize c ∧
        ((MemoryCache.evictLoop fuel n c).current_size + n
            ≤ (MemoryCache.evictLoop fuel n c).maxsize ∨
          (MemoryCache.evictLoop fuel n c).cache = []) := by
  intro fuel
  induction fuel with
  | zero =>
      intro c hWF hlen
      have : c.cache = [] := List.length_eq_zero.mp (Nat.le_zero.mp hlen)
      exact ⟨hWF, rfl, rfl, le_refl _, Or.inr this⟩
  | succ fuel ih =>
      intro c hWF hlen
      unfold MemoryCache.evictLoop
      by_cases hg : c.current_size + n > c.maxsize ∧ c.cache ≠ []
      · rw [if_pos hg]
        obtain ⟨hWF', hlen', hclock', hslack', htot'⟩ :=
          evict_lru_spec c hWF hg.2
        have hle : c.evict_lru.cache.length ≤ fuel := by omega
        obtain ⟨w1, w2, w3, w4, w5⟩ := ih c.evict_lru hWF' hle
        exact ⟨w1, w2.trans hclock', w3.trans hslack',
          le_trans w4 htot', w5⟩
      · rw [if_neg hg]
        push_neg at hg
        refine ⟨hWF, rfl, rfl, le_refl _, ?_⟩
        by_cases hc : c.cache = []
        · exact Or.inr hc
        · have hA : ¬ c.current_size + (n : Int) > (c.maxsize : Int) :=
            fun hA => hc (hg hA)
          exact Or.inl (by omega)

theorem set_maxsize (c : MemoryCache) (key : String) (data : Bytes) :
    (c.set key data).maxsize = c.maxsize := by
  unfold MemoryCache.set
  simp only
  by_cases hfit : data.length ≤
      (MemoryCache.evictLoop c.cache.length data.length c).maxsize
  · rw [if_pos hfit]
    exact evictLoop_maxsize _ _ _
  · rw [if_neg hfit]
    exact evictLoop_maxsize _ _ _

/-- `set` preserves the reachable-state invariant. -/
theorem set_inv (c : MemoryCache) (key : String) (data : Bytes)
    (h : c.Inv) : (c.set key data).Inv := by
  obtain ⟨hWF, hts, htm⟩ := h
  obtain ⟨l1, _, l3, l4, l5⟩ :=
    evictLoop_spec data.length c.cache.length c hWF (le_refl _)
  have hmax : (MemoryCache.evictLoop c.cache.length data.length c).maxsize
      = c.maxsize := evictLoop_maxsize _ _ _
  set c1 := MemoryCache.evictLoop c.cache.length data.length c with hc1
  have hts1 : (MemoryCache.totalSize c1 : Int) ≤ c1.current_size := by omega
  have htm1 : MemoryCache.totalSize c1 ≤ c1.maxsize := by omega
  unfold MemoryCache.set
  simp only [← hc1]
  by_cases hfit : data.length ≤ c1.maxsize
  · rw [if_pos hfit]
    obtain ⟨hnd1, hnd2, hsync⟩ := l1
    have hsumle := dictInsert_sum_le c1.cache key data
    constructor
    · refine ⟨dictInsert_keys_nodup hnd1, dictInsert_keys_nodup hnd2, ?_⟩
      intro k'
      by_cases hk' : key = k'
      · subst hk'
        simp
      · show (dictLookup (dictInsert c1.cache key data) k').isSome
          = (dictLookup (dictInsert c1.access_times key c1.clock) k').isSome
        rw [dictLookup_dictInsert_ne _ _ _ _ hk',
          dictLookup_dictInsert_ne _ _ _ _ hk']
        exact hsync k'
    · constructor
      · show (MemoryCache.totalSize
            { c1 with cache := dictInsert c1.cache key data
                      access_times := dictInsert c1.access_times key c1.clock
                      clock := c1.clock + 1
                      current_size := c1.current_size + data.length } : Int)
          ≤ c1.current_size + data.length
        unfold MemoryCache.totalSize at hts1 hsumle ⊢
        simp only
        omega
      · show MemoryCache.totalSize
            { c1 with cache := dictInsert c1.cache key data
                      access_times := dictInsert c1.access_times key c1.clock
                      clock := c1.clock + 1
                      current_size := c1.current_size + data.length }
          ≤ c1.maxsize
        rcases l5 with l5 | l5
        · unfold MemoryCache.totalSize at hts1 hsumle ⊢
          simp only
          omega
        · have : MemoryCache.totalSize c1 = 0 := by
            unfold MemoryCache.totalSize
            rw [l5]
            rfl
          unfold MemoryCache.totalSize at this hsumle ⊢
          simp only
          omega
  · rw [if_neg hfit]
    exact ⟨l1, hts1, htm1⟩

/-- `get` preserves the reachable-state invariant. -/
theorem get_inv (c : MemoryCache) (key : String) (h : c.Inv) :
    (c.get key).2.Inv := by
  obtain ⟨⟨hnd1, hnd2, hsync⟩, hts, htm⟩ := h
  unfold MemoryCache.get
  cases hl : dictLookup c.cache key with
  | none => exact ⟨⟨hnd1, hnd2, hsync⟩, hts, htm⟩
  | some data =>
      have hpres : (dictLookup c.access_times key).isSome := by
        rw [← hsync key, hl]
        rfl
      refine ⟨⟨hnd1, ?_, ?_⟩, hts, htm⟩
      · show ((dictInsert c.access_times key c.clock).map Prod.fst).Nodup
        rw [dictInsert_keys_of_present hpres]
        exact hnd2
      · intro k'
        by_cases hk' : key = k'
        · subst hk'
          simp [hl]
        · show (dictLookup c.cache k').isSome
            = (dictLookup (dictInsert c.access_times key c.clock) k').isSome
          rw [dictLookup_dictInsert_ne _ _ _ _ hk']
          exact hsync k'

theorem get_maxsize (c : MemoryCache) (key : String) :
    (c.get key).2.maxsize = c.maxsize := by
  unfold MemoryCache.get
  cases dictLookup c.cache key <;> rfl

/-- The invariant holds along every operation sequence from a freshly
constructed memory cache. -/
theorem applyOps_inv (ops : List CacheOp) :
    ∀ (c : MemoryCache), c.Inv → (c.applyOps ops).Inv := by
  induction ops with
  | nil => intro c h; exact h
  | cons op ops ih =>
      intro c h
      show ((c.applyOp op).applyOps ops).Inv
      refine ih _ ?_
      cases op with
      | setOp k d => exact set_inv c k d h
      | getOp k => exact get_inv c k h

theorem mkMemoryCache_inv (mb : Nat) : (mkMemoryCache mb).Inv := by
  refine ⟨⟨?_, ?_, ?_⟩, ?_, ?_⟩ <;> simp [mkMemoryCache, MemoryCache.totalSize]

/-- A fitting `set` leaves the key resident with exactly the new data. -/
theorem set_lookup (c : MemoryCache) (key : String) (data : Bytes)
    (hfit : data.length ≤ c.maxsize) :
    dictLookup (c.set key data).cache key = some data := by
  have hmax := evictLoop_maxsize data.length c.cache.length c
  unfold MemoryCache.set
  simp only
  rw [if_pos (hmax.symm ▸ hfit)]
  exact dictLookup_dictInsert _ _ _

/-- An oversized `set` on a state satisfying the size part of the
invariant first evicts every resident entry (the new item can never fit),
leaves both dicts empty, drops the item, and leaves `current_size` at
exactly the accumulated overcount `current_size - totalSize`. -/
theorem set_oversized (c : MemoryCache) (key : String) (data : Bytes)
    (hWF : c.WF) (hts : (MemoryCache.totalSize c : Int) ≤ c.current_size)
    (hbig : c.maxsize < data.length) :
    (c.set key data).cache = [] ∧ (c.set key data).access_times = [] ∧
      (c.set key data).current_size
        = c.current_size - MemoryCache.totalSize c := by
  obtain ⟨l1, _, l3, l4, l5⟩ :=
    evictLoop_spec data.length c.cache.length c hWF (le_refl _)
  have hmax := evictLoop_maxsize data.length c.cache.length c
  set c1 := MemoryCache.evictLoop c.cache.length data.length c with hc1
  have hc1nil : c1.cache = [] := by
    rcases l5 with l5 | l5
    · exfalso
      omega
    · exact l5
  have htot1 : MemoryCache.totalSize c1 = 0 := by
    unfold MemoryCache.totalSize
    rw [hc1nil]
    rfl
  have hacc : c1.access_times = [] := access_times_nil_of_cache_nil l1 hc1nil
  unfold MemoryCache.set
  simp only [← hc1]
  rw [if_neg (by omega)]
  exact ⟨hc1nil, hacc, by omega⟩

theorem applyOps_maxsize (ops : List CacheOp) :
    ∀ (c : MemoryCache), (c.applyOps ops).maxsize = c.maxsize := by
  induction ops with
  | nil => intro c; rfl
  | cons op ops ih =>
      intro c
      show ((c.applyOp op).applyOps ops).maxsize = c.maxsize
      rw [ih]
      cases op with
      | setOp k d => exact set_maxsize c k d
      | getOp k => exact get_maxsize c k

/-! ## Lemmas about `DiskCache` -/

theorem dictLookup_of_sublist {l r : List (String × α)}
    (hsub : List.Sublist r l) (hnd : (l.map Prod.fst).Nodup) {p : String}
    {f : α} (h : dictLookup r p = some f) : dictLookup l p = some f :=
  dictLookup_of_mem_nodup hnd (hsub.subset (dictLookup_mem h))

theorem perm_cons_dictErase {l : List (String × α)} {p : String} {f : α}
    (h : dictLookup l p = some f) : l.Perm ((p, f) :: dictErase l p) := by
  induction l with
  | nil => simp [dictLookup] at h
  | cons hd tl ih =>
      obtain ⟨k, v⟩ := hd
      by_cases hk : k = p
      · subst hk
        simp only [dictLookup, if_pos rfl] at h
        injection h with h
        subst h
        simp [dictErase]
      · simp only [dictLookup, hk, if_false] at h
        have h1 := (ih h).cons (k, v)
        have h2 : ((k, v) :: (p, f) :: dictErase tl p).Perm
            ((p, f) :: (k, v) :: dictErase tl p) := List.Perm.swap _ _ _
        have h3 : dictErase ((k, v) :: tl) p = (k, v) :: dictErase tl p := by
          simp [dictErase, hk]
        rw [h3]
        exact h1.trans h2

theorem insertByAtime_perm (x : String × DiskFile)
    (l : List (String × DiskFile)) : (insertByAtime x l).Perm (x :: l) := by
  induction l with
  | nil => simp [insertByAtime]
  | cons y ys ih =>
      unfold insertByAtime
      by_cases hlt : x.2.atime < y.2.atime
      · rw [if_pos hlt]
      · rw [if_neg hlt]
        exact (ih.cons y).trans (List.Perm.swap _ _ _)

theorem sortByAtime_perm (l : List (String × DiskFile)) :
    (sortByAtime l).Perm l := by
  induction l with
  | nil => simp [sortByAtime]
  | cons x xs ih =>
      unfold sortByAtime
      exact (insertByAtime_perm x (sortByAtime xs)).trans (ih.cons _)

theorem dictErase_cacheSize {l : List (String × DiskFile)} {k : String}
    {v : DiskFile} (h : dictLookup l k = some v) :
    DiskCache.cacheSize (dictErase l k) + v.content.length
      = DiskCache.cacheSize l := by
  induction l with
  | nil => simp [dictLookup] at h
  | cons hd tl ih =>
      obtain ⟨k', v'⟩ := hd
      by_cases hk : k' = k
      · subst hk
        simp only [dictLookup, if_pos rfl] at h
        injection h with h
        subst h
        simp [dictErase, DiskCache.cacheSize]
        omega
      · simp only [dictLookup, hk, if_false] at h
        have := ih h
        simp only [DiskCache.cacheSize, dictErase, hk, if_false,
          List.map_cons, List.sum_cons] at this ⊢
        omega

theorem dictInsert_cacheSize_le (l : List (String × DiskFile)) (k : String)
    (v : DiskFile) :
    DiskCache.cacheSize (dictInsert l k v)
      ≤ DiskCache.cacheSize l + v.content.length := by
  induction l with
  | nil => simp [dictInsert, DiskCache.cacheSize]
  | cons hd tl ih =>
      obtain ⟨k', v'⟩ := hd
      by_cases hk : k' = k
      · simp only [dictInsert, hk, if_true]
        simp [DiskCache.cacheSize]
        omega
      · simp only [dictInsert, hk, if_false]
        simp only [DiskCache.cacheSize, List.map_cons, List.sum_cons] at ih ⊢
        omega

/-- The deletion loop of `_cleanup_if_needed` reaches a state where the
new payload fits — or has deleted every file; and it only ever deletes. -/
theorem cleanupLoop_spec (max_size need : Nat) :
    ∀ (sorted files : List (String × DiskFile)) (cur : Int),
      (files.map Prod.fst).Nodup → sorted.Perm files →
      cur = DiskCache.cacheSize files →
      ((DiskCache.cacheSize (cleanupLoop max_size need sorted cur files) : Int)
          + need ≤ max_size ∨
        cleanupLoop max_size need sorted cur files = []) ∧
      List.Sublist (cleanupLoop max_size need sorted cur files) files := by
  intro sorted
  induction sorted with
  | nil =>
      intro files cur hnd hperm hcur
      have hf : files = [] := hperm.symm.eq_nil
      subst hf
      exact ⟨Or.inr rfl, List.Sublist.refl _⟩
  | cons hd tl ih =>
      intro files cur hnd hperm hcur
      obtain ⟨p, f⟩ := hd
      unfold cleanupLoop
      by_cases hstop : cur + need ≤ max_size
      · rw [if_pos hstop]
        exact ⟨Or.inl (by omega), List.Sublist.refl _⟩
      · rw [if_neg hstop]
        have hmem : (p, f) ∈ files := hperm.subset (List.mem_cons_self _ _)
        have hlk : dictLookup files p = some f := dictLookup_of_mem_nodup hnd hmem
        have hperm2 : files.Perm ((p, f) :: dictErase files p) :=
          perm_cons_dictErase hlk
        have htl : tl.Perm (dictErase files p) :=
          (hperm.trans hperm2).cons_inv
        have hnd' : ((dictErase files p).map Prod.fst).Nodup :=
          dictErase_keys_nodup hnd
        have hsz := dictErase_cacheSize hlk
        have hcur' : cur - (f.content.length : Int)
            = DiskCache.cacheSize (dictErase files p) := by omega
        obtain ⟨h1, h2⟩ := ih (dictErase files p)
          (cur - f.content.length) hnd' htl hcur'
        exact ⟨h1, h2.trans (dictErase_sublist _ _)⟩

/-- `_cleanup_if_needed` always leaves room for a payload that fits the
budget at all, only deletes files, and touches nothing else. -/
theorem cleanup_spec (c : DiskCache) (need : Nat)
    (hnd : (c.files.map Prod.fst).Nodup) :
    ((DiskCache.cacheSize (c.cleanup_if_needed need).files : Int) + need
        ≤ c.max_size ∨ (c.cleanup_if_needed need).files = []) ∧
      List.Sublist (c.cleanup_if_needed need).files c.files ∧
      (c.cleanup_if_needed need).max_size = c.max_size ∧
      (c.cleanup_if_needed need).tmp = c.tmp ∧
      (c.cleanup_if_needed need).clock = c.clock := by
  unfold DiskCache.cleanup_if_needed
  by_cases htrig : (DiskCache.cacheSize c.files : Int) + need > c.max_size
  · rw [if_pos htrig]
    obtain ⟨h1, h2⟩ := cleanupLoop_spec c.max_size need (sortByAtime c.files)
      c.files (DiskCache.cacheSize c.files) hnd (sortByAtime_perm _) rfl
    exact ⟨h1, h2, rfl, rfl, rfl⟩
  · rw [if_neg htrig]
    exact ⟨Or.inl (by omega), List.Sublist.refl _, rfl, rfl, rfl⟩

/-- After any `DiskCache.set` of a payload that fits the budget, the
resident `.cache` bytes are within the budget. -/
theorem diskSet_budget (c : DiskCache) (key : String) (data : Bytes)
    (writeOk : Bool) (hnd : (c.files.map Prod.fst).Nodup)
    (hfit : data.length ≤ c.max_size) :
    DiskCache.cacheSize (c.set key data writeOk).2.files ≤ c.max_size := by
  obtain ⟨h1, _, hmax, _, _⟩ := cleanup_spec c data.length hnd
  unfold DiskCache.set
  cases writeOk with
  | false =>
      simp only [Bool.false_eq_true, if_false]
      rcases h1 with h1 | h1
      · omega
      · simp [h1, DiskCache.cacheSize]
  | true =>
      simp only [if_true]
      have hins := dictInsert_cacheSize_le
        (c.cleanup_if_needed data.length).files key
        ⟨data, (c.cleanup_if_needed data.length).clock⟩
      rcases h1 with h1 | h1
      · simp only at hins ⊢
        omega
      · rw [h1] at hins ⊢
        simp only [DiskCache.cacheSize, List.map_nil, List.sum_nil] at hins ⊢
        simp only [dictInsert] at hins ⊢
        simp [DiskCache.cacheSize] at hins ⊢
        omega

/-- A successful `DiskCache.set` leaves exactly the new payload under the
key's `.cache` filename. -/
theorem diskSet_lookup (c : DiskCache) (key : String) (data : Bytes) :
    dictLookup (c.set key data true).2.files key
      = some ⟨data, (c.cleanup_if_needed data.length).clock⟩ := by
  unfold DiskCache.set
  simp only [if_true]
  exact dictLookup_dictInsert _ _ _

/-- `DiskCache.get` after a successful `set` returns the stored bytes. -/
theorem diskSet_get (c : DiskCache) (key : String) (data : Bytes) :
    ((c.set key data true).2.get key).1 = some data := by
  unfold DiskCache.get
  rw [diskSet_lookup]

/-- On a cache with no resident files, `_cleanup_if_needed` is the
identity (either it does not trigger, or its loop walks an empty
listing). -/
theorem cleanup_files_nil (c : DiskCache) (n : Nat) (h : c.files = []) :
    c.cleanup_if_needed n = c := by
  obtain ⟨ms, fs, tm, ck⟩ := c
  simp only at h
  subst h
  unfold DiskCache.cleanup_if_needed
  simp [DiskCache.cacheSize, sortByAtime, cleanupLoop]

/-- The state after a successful `set` on a cache with no resident
files. -/
theorem diskSet_state_of_nil (c : DiskCache) (key : String) (data : Bytes)
    (h : c.files = []) :
    (c.set key data true).2
      = { max_size := c.max_size
          files := [(key, ⟨data, c.clock⟩)]
          tmp := dictErase (dictInsert c.tmp key data) key
          clock := c.clock + 1 } := by
  unfold DiskCache.set
  simp only
  rw [cleanup_files_nil _ _ h]
  rw [h]
  rfl

/-- The result and state of a `DiskCache.set` whose temp-file write
fails. -/
theorem diskSet_error_state (c : DiskCache) (key : String) (data : Bytes) :
    c.set key data false
      = (Except.error MediaCacheError.failedToCache,
        { max_size := (c.cleanup_if_needed data.length).max_size
          files := (c.cleanup_if_needed data.length).files
          tmp := dictErase (c.cleanup_if_needed data.length).tmp key
          clock := (c.cleanup_if_needed data.length).clock }) := by
  unfold DiskCache.set
  rfl

/-- `_cleanup_if_needed` on a cache holding a single file that must make
way for the new payload deletes that file. -/
theorem cleanup_single_evict (c : DiskCache) (p : String) (f : DiskFile)
    (need : Nat) (hf : c.files = [(p, f)])
    (htrig : (c.max_size : Int) < f.content.length + need) :
    (c.cleanup_if_needed need).files = [] := by
  unfold DiskCache.cleanup_if_needed
  rw [hf]
  have hc : DiskCache.cacheSize [(p, f)] = f.content.length := by
    simp [DiskCache.cacheSize]
  rw [if_pos (by rw [hc]; omega)]
  have hsort : sortByAtime [(p, f)] = [(p, f)] := rfl
  rw [hc, hsort]
  unfold cleanupLoop
  rw [if_neg (by omega)]
  unfold cleanupLoop
  simp [dictErase]

/-- Combining the two: a failing `set` on a cache holding a single file
that had to be evicted for the new payload leaves no file under the key's
`.cache` filename. -/
theorem diskSet_error_files_evicted (c : DiskCache) (p key : String)
    (f : DiskFile) (data : Bytes) (hf : c.files = [(p, f)])
    (htrig : (c.max_size : Int) < f.content.length + data.length) :
    dictLookup (c.set key data false).2.files key = none := by
  have h1 : (c.set key data false).2.files
      = (c.cleanup_if_needed data.length).files := by
    rw [diskSet_error_state]
  rw [h1, cleanup_single_evict c p f data.length hf htrig]
  rfl

/-! ## The claims -/

/-- C5: `get_media_format(url, mimetype)` is pure and total (it is a
total Lean function of its inputs, so determinism and never-raising hold
by construction; the source's `try/except` fallthroughs are embedded as
steps returning `none`), and it resolves in the order (1) exact MIME-type
membership per kind, (2) file-extension suffix membership per kind,
(3) system MIME guess, (4) UNKNOWN — stated as extensional equality with
`specResolveFormat`, which is written from the spec's words; moreover a
known MIME type wins over a disagreeing extension: a `.txt` URL with MIME
`image/png` classifies as IMAGE, for every guess oracle. -/
theorem claim5_format_resolution_order :
    (∀ (guess : String → Option String) (url : String)
        (mimetype : Option String),
      get_media_format guess url mimetype
        = specResolveFormat guess url mimetype) ∧
    (∀ guess : String → Option String,
      get_media_format guess "https://example.com/file.txt"
        (some "image/png") = MediaFormat.IMAGE) := by
  constructor
  · intro guess url mimetype
    unfold get_media_format specResolveFormat
    cases formatFromMimetype mimetype with
    | some f => rfl
    | none =>
        cases formatFromExtension url with
        | some f => rfl
        | none => cases formatFromGuess guess url with
          | some f => rfl
          | none => rfl
  · intro guess
    rfl

/-- C7: with `show_media_previews = False` the manager returns the
"previews disabled" placeholder without touching the Loader (the `Bool`
component of the model records any Loader invocation), and with previews
enabled but the classifier returning UNKNOWN it returns the unsupported-
format placeholder, likewise without touching the Loader. -/
theorem claim7_short_circuit (guess : String → Option String)
    (cfg : MediaConfigModel) (att : Attachment) (preload : Bool)
    (loaderData : Option Bytes) :
    (cfg.show_media_previews = false →
      MediaManager.get_media_widget guess cfg att preload loaderData
        = (ManagerWidget.disabledPlaceholder, false)) ∧
    (cfg.show_media_previews = true →
      get_media_format guess att.url att.type = MediaFormat.UNKNOWN →
      MediaManager.get_media_widget guess cfg att preload loaderData
        = (ManagerWidget.genericPlaceholder, false)) := by
  constructor
  · intro h
    unfold MediaManager.get_media_widget
    rw [h]
    simp
  · intro h hu
    unfold MediaManager.get_media_widget
    rw [h]
    simp [is_supported_format, hu]

theorem claim7_witness :
    MediaManager.get_media_widget (fun _ => none) ⟨false⟩
        ⟨"https://e/a.png", none⟩ true none
      = (ManagerWidget.disabledPlaceholder, false) ∧
    MediaManager.get_media_widget (fun _ => none) ⟨true⟩
        ⟨"https://e/a.bin", none⟩ true none
      = (ManagerWidget.genericPlaceholder, false) :=
  ⟨(claim7_short_circuit _ _ _ _ _).1 rfl,
   (claim7_short_circuit _ _ _ _ _).2 rfl rfl⟩

/-- C9: when the registry resolves no viewer for the URL's classified
kind, `open_media` returns `False` and raises nothing; a discovery pass
finding no program and no generic opener yields an empty registry; and on
that empty registry `open_media("image.png")` returns `False` for every
oracle. -/
theorem claim9_no_viewer :
    (∀ (guess : String → Option String) (viewers : List (String × String))
        (tmpWriteOk launchOk : Bool) (url : String)
        (media_data : Option Bytes),
      get_viewer_for_url guess viewers url = none →
      open_media guess viewers tmpWriteOk launchOk url media_data
        = Except.ok false) ∧
    (∀ which : String → Bool, (∀ p, which p = false) →
      get_default_viewers which = []) ∧
    (∀ (guess : String → Option String) (tmpWriteOk launchOk : Bool)
        (media_data : Option Bytes),
      open_media guess (get_default_viewers (fun _ => false)) tmpWriteOk
        launchOk "image.png" media_data = Except.ok false) := by
  refine ⟨?_, ?_, ?_⟩
  · intro guess viewers tmpWriteOk launchOk url media_data h
    unfold open_media
    rw [h]
  · intro which h
    simp [get_default_viewers, firstAvailable, h]
  · intro guess tmpWriteOk launchOk media_data
    rfl

theorem claim9_witness :
    open_media (fun _ => none) [] true true "https://e/v.mp4" none
        = Except.ok false ∧
      get_default_viewers (fun _ => false) = [] :=
  ⟨claim9_no_viewer.1 _ [] _ _ _ _ rfl,
   claim9_no_viewer.2.1 _ (fun _ => rfl)⟩

/-- C8 counterexample: a resolved viewer (`feh` for the image kind) whose
subprocess launch fails (`launchOk = false`) makes `open_media` return
`Except.ok false` — the launch exception is caught inside
`_execute_viewer` and becomes a `False` return, not a raised
open-failure error as the claim states. -/
theorem claim8_counterexample :
    open_media (fun _ => none) [("image", "feh")] true false "image.png"
      none = Except.ok false := rfl

/-- C8 amended: when a viewer command is resolved and the launch itself
fails, `open_media` reports failure as a `False` return (never a silent
success, but not a raised error either); only a failure before the launch
— writing the temporary file for supplied payload bytes — is raised as an
explicit open-failure error. -/
theorem claim8_amended (guess : String → Option String)
    (viewers : List (String × String)) (url cmd : String)
    (hres : get_viewer_for_url guess viewers url = some cmd)
    (hcmd : cmd ≠ "") :
    (∀ media_data : Option Bytes,
      open_media guess viewers true false url media_data
        = Except.ok false) ∧
    (∀ media_data : Option Bytes, media_data.getD [] ≠ [] →
      ∀ launchOk : Bool,
      open_media guess viewers false launchOk url media_data
        = Except.error ExternalViewerError.openFailed) := by
  constructor
  · intro d
    unfold open_media
    rw [hres]
    simp only [if_neg hcmd]
    by_cases hd : d.getD [] ≠ []
    · rw [if_pos hd]
      rfl
    · rw [if_neg hd]
      rfl
  · intro d hd launchOk
    unfold open_media
    rw [hres]
    simp only [if_neg hcmd]
    rw [if_pos hd]
    rfl

/-- C6 counterexample: a successful response with no `content-length`
header and a body one byte above 50 MiB is returned whole by
`_download_media` — the code never checks the actual payload size after
download, contrary to the claim's "otherwise after the download
completes". -/
theorem claim6_counterexample :
    MediaLoader.download_media true
        { ok := true, content_length := none, content := oversizedBody }
      = Except.ok oversizedBody ∧
    50 * 1024 * 1024 < oversizedBody.length := by
  refine ⟨rfl, ?_⟩
  rw [oversizedBody, List.length_replicate]
  omega

/-- C6 amended: a download is rejected with a loader error before
buffering when the `content-length` header announces more than 50 MiB;
when the header is absent, no size check at all is performed and the
payload is returned to the caller whatever its size. -/
theorem claim6_amended (resp : HttpResponse) (hok : resp.ok = true) :
    (∀ n : Nat, resp.content_length = some n → 50 * 1024 * 1024 < n →
      MediaLoader.download_media true resp
        = Except.error MediaLoadError.downloadFailed) ∧
    (resp.content_length = none →
      MediaLoader.download_media true resp = Except.ok resp.content) := by
  constructor
  · intro n hcl hn
    unfold MediaLoader.download_media
    rw [hcl]
    simp [hok, hn]
  · intro hcl
    unfold MediaLoader.download_media
    rw [hcl]
    simp [hok]

theorem claim6_witness :
    MediaLoader.download_media true
        { ok := true, content_length := some (50 * 1024 * 1024 + 1),
          content := [] }
      = Except.error MediaLoadError.downloadFailed ∧
    MediaLoader.download_media true
        { ok := true, content_length := none, content := [7] }
      = Except.ok [7] :=
  ⟨(claim6_amended
      { ok := true, content_length := some (50 * 1024 * 1024 + 1),
        content := [] } rfl).1 (50 * 1024 * 1024 + 1) rfl (by decide),
   (claim6_amended
      { ok := true, content_length := none, content := [7] } rfl).2 rfl⟩

/-- C4: the claim matches the spec's stated intent (cache population is
best-effort; a successful download must be returned even if storing it
fails), but the code contradicts it: in `load_media` the
`store_full_media` call sits inside the same `try` block as the
download, so a `MediaCacheError` from the disk store is re-raised as
`MediaLoadError` and the downloaded payload is lost.  Evaluated here at
the failing input: empty caches, a successful 1 MiB download (routed to
the disk tier), and a failing disk write. -/
theorem claim4_store_failure_fails_load :
    (MediaLoader.load_media (fun _ => none) (fun _ => none) true
        { ok := true, content_length := none, content := bigPayload } false
        (mkMediaCache 50 500) "https://files.example/a.bin" true).1
      = Except.error MediaLoadError.loadFailed := by
  have hne : bigPayload ≠ [] := by
    rw [bigPayload]
    intro h
    have h2 := congrArg List.length h
    rw [List.length_replicate] at h2
    simp at h2
  have hlen : bigPayload.length = 1024 * 1024 := by
    rw [bigPayload, List.length_replicate]
  simp only [MediaLoader.load_media, MediaCache.get_thumbnail,
    MediaCache.get_full_media, MediaCache.cacheKey, MemoryCache.get,
    DiskCache.get, mkMediaCache, mkMemoryCache, mkDiskCache, dictLookup,
    MediaLoader.download_media, MediaCache.store_full_media,
    DiskCache.set, hlen, hne]
  simp [hne, hlen]

theorem claim8_witness :
    open_media (fun _ => none) [("image", "feh")] true false "a.png" none
        = Except.ok false ∧
      open_media (fun _ => none) [("image", "feh")] false true "a.png"
        (some [0]) = Except.error ExternalViewerError.openFailed :=
  ⟨(claim8_amended (fun _ => none) [("image", "feh")] "a.png" "feh" rfl
      (by decide)).1 none,
   (claim8_amended (fun _ => none) [("image", "feh")] "a.png" "feh" rfl
      (by decide)).2 (some [0]) (by decide) true⟩

/-- C10 counterexample: on the reachable state built by `set("k", 3
bytes)` then `set("k", 4 bytes)` on a 1 MB cache (the duplicate-key `set`
inflates the tracked size to 7 while only 4 bytes are resident), an
oversized `set("j", 1 MiB + 1)` empties the cache as the claim says — but
leaves `current_size = 3`, not `0`. -/
theorem claim10_counterexample :
    ((((mkMemoryCache 1).set "k" [0, 0, 0]).set "k" [0, 0, 0, 0]).set "j"
        hugePayload).cache = [] ∧
      ((((mkMemoryCache 1).set "k" [0, 0, 0]).set "k" [0, 0, 0, 0]).set "j"
          hugePayload).current_size = 3 := by
  have h2 : ((mkMemoryCache 1).set "k" [0, 0, 0]).set "k" [0, 0, 0, 0]
      = { maxsize := 1048576, cache := [("k", [0, 0, 0, 0])],
          access_times := [("k", 1)], current_size := 7, clock := 2 } := by
    decide
  have hWF : MemoryCache.WF
      { maxsize := 1048576, cache := [("k", [0, 0, 0, 0])],
        access_times := [("k", 1)], current_size := 7, clock := 2 } := by
    refine ⟨by decide, by decide, ?_⟩
    intro k
    by_cases hk : "k" = k <;> simp [dictLookup, hk]
  have hbig : (1048576 : Nat) < hugePayload.length := by
    rw [hugePayload, List.length_replicate]
    omega
  obtain ⟨ha, _, hc⟩ := set_oversized
    { maxsize := 1048576, cache := [("k", [0, 0, 0, 0])],
      access_times := [("k", 1)], current_size := 7, clock := 2 }
    "j" hugePayload hWF (by decide) hbig
  rw [h2]
  exact ⟨ha, by rw [hc]; decide⟩

/-- C10 amended: an oversized `set` on any well-formed state whose
tracked size is at least the resident byte count is indeed not a no-op —
the eviction loop runs until the cache is empty, both dicts end empty and
the item is dropped — but `current_size` ends at the accumulated
overcount `current_size - totalSize` (the tracked size minus the actual
resident bytes), which is `0` only when no earlier `set` overwrote an
existing key. -/
theorem claim10_amended (c : MemoryCache) (key : String) (data : Bytes)
    (hWF : c.WF) (hts : (MemoryCache.totalSize c : Int) ≤ c.current_size)
    (hbig : c.maxsize < data.length) :
    (c.set key data).cache = [] ∧ (c.set key data).access_times = [] ∧
      (c.set key data).current_size
        = c.current_size - MemoryCache.totalSize c :=
  set_oversized c key data hWF hts hbig

theorem claim10_witness :
    ((mkMemoryCache 0).set "k" [0]).cache = [] ∧
      ((mkMemoryCache 0).set "k" [0]).access_times = [] ∧
      ((mkMemoryCache 0).set "k" [0]).current_size
        = (mkMemoryCache 0).current_size
          - MemoryCache.totalSize (mkMemoryCache 0) :=
  claim10_amended (mkMemoryCache 0) "k" [0]
    ⟨by decide, by decide, fun _ => rfl⟩ (by decide) (by decide)

/-- C1 counterexample: `DiskCache.set` never refuses an entry strictly
larger than the budget — on a fresh 1 MB disk cache, storing a payload of
1 MiB + 1 bytes leaves the resident `.cache` bytes above the configured
byte budget, refuting both the refusal and the invariant for the disk
tier. -/
theorem claim1_counterexample :
    (mkDiskCache 1).max_size
      < DiskCache.cacheSize ((mkDiskCache 1).set "k" hugePayload true).2.files := by
  have hlen : hugePayload.length = 1024 * 1024 + 1 := by
    rw [hugePayload, List.length_replicate]
  rw [diskSet_state_of_nil _ _ _ rfl]
  simp [DiskCache.cacheSize, hlen, mkDiskCache]

/-- C1 amended: the memory tier satisfies the claim in full — over every
operation sequence from a fresh cache the resident bytes never exceed the
byte budget, an entry strictly larger than the budget is refused, and
eviction picks a minimal-access-time entry (ascending last-access order).
The disk tier keeps the invariant only for payloads that fit the budget
at all: cleanup deletes files in ascending access-time order until the
new payload fits, but a payload strictly larger than the budget is still
admitted (see the counterexample). -/
theorem claim1_amended_budget :
    (∀ (mb : Nat) (ops : List CacheOp),
      MemoryCache.totalSize ((mkMemoryCache mb).applyOps ops)
        ≤ mb * 1024 * 1024) ∧
    (∀ (c : MemoryCache) (key : String) (data : Bytes),
      c.WF → (MemoryCache.totalSize c : Int) ≤ c.current_size →
      c.maxsize < data.length →
      dictLookup (c.set key data).cache key = none) ∧
    (∀ (l : List (String × Nat)) (k : String) (t : Nat),
      minAccessKey l = some (k, t) → ∀ p ∈ l, t ≤ p.2) ∧
    (∀ (c : DiskCache) (key : String) (data : Bytes) (writeOk : Bool),
      (c.files.map Prod.fst).Nodup → data.length ≤ c.max_size →
      DiskCache.cacheSize (c.set key data writeOk).2.files ≤ c.max_size) := by
  refine ⟨?_, ?_, ?_, ?_⟩
  · intro mb ops
    have h := applyOps_inv ops (mkMemoryCache mb) (mkMemoryCache_inv mb)
    have hm := applyOps_maxsize ops (mkMemoryCache mb)
    have h3 := h.2.2
    rw [hm] at h3
    exact h3
  · intro c key data hWF hts hbig
    have h := (set_oversized c key data hWF hts hbig).1
    rw [h]
    rfl
  · exact fun l k t h => minAccessKey_min h
  · exact fun c key data w hnd hfit => diskSet_budget c key data w hnd hfit

theorem claim1_witness :
    MemoryCache.totalSize
        ((mkMemoryCache 1).applyOps [CacheOp.setOp "k" [0]])
      ≤ 1 * 1024 * 1024 ∧
    dictLookup ((mkMemoryCache 0).set "k" [0]).cache "k" = none ∧
    DiskCache.cacheSize ((mkDiskCache 1).set "k" [0] true).2.files
      ≤ (mkDiskCache 1).max_size :=
  ⟨claim1_amended_budget.1 1 [CacheOp.setOp "k" [0]],
   claim1_amended_budget.2.1 (mkMemoryCache 0) "k" [0]
     ⟨by decide, by decide, fun _ => rfl⟩ (by decide) (by decide),
   claim1_amended_budget.2.2.2 (mkDiskCache 1) "k" [0] true (by decide)
     (by decide)⟩

/-- C2 counterexample: on the disk tier, `set` of a payload strictly
larger than the budget followed by `get` returns the payload — not
absent, as the claim requires for an over-budget payload. -/
theorem claim2_counterexample :
    (mkDiskCache 1).max_size < hugePayload.length ∧
      (((mkDiskCache 1).set "k" hugePayload true).2.get "k").1
        = some hugePayload := by
  constructor
  · rw [hugePayload, List.length_replicate]
    norm_num [mkDiskCache]
  · exact diskSet_get _ _ _

/-- C2 amended: `set(key, data)` followed by `get(key)` on the same tier
returns `data` byte-identically whenever `len(data)` fits the tier
budget; an over-budget payload yields absent on the memory tier, but the
disk tier admits and returns it (see the counterexample).  A
`store_full_media` / `get_full_media` round trip is byte-identical for
non-empty payloads that fit their tier and are not shadowed by an
existing memory-tier entry for the same URL; an empty payload stored in
the memory tier is reported as absent (`if data:` treats `b""` as a
miss). -/
theorem claim2_amended :
    (∀ (c : MemoryCache) (key : String) (data : Bytes),
      data.length ≤ c.maxsize → ((c.set key data).get key).1 = some data) ∧
    (∀ (c : MemoryCache) (key : String) (data : Bytes),
      c.WF → (MemoryCache.totalSize c : Int) ≤ c.current_size →
      c.maxsize < data.length → ((c.set key data).get key).1 = none) ∧
    (∀ (c : DiskCache) (key : String) (data : Bytes),
      ((c.set key data true).2.get key).1 = some data) ∧
    (∀ (m : MediaCache) (url : String) (data : Bytes), data ≠ [] →
      (data.length < 1024 * 1024 → data.length ≤ m.memory.maxsize →
        ((m.store_full_media url data true).2.get_full_media url).1
          = some data) ∧
      (¬ data.length < 1024 * 1024 →
        dictLookup m.memory.cache (MediaCache.cacheKey url false) = none →
        ((m.store_full_media url data true).2.get_full_media url).1
          = some data)) := by
  refine ⟨?_, ?_, ?_, ?_⟩
  · intro c key data hfit
    unfold MemoryCache.get
    rw [set_lookup c key data hfit]
  · intro c key data hWF hts hbig
    have h := (set_oversized c key data hWF hts hbig).1
    unfold MemoryCache.get
    rw [h, dictLookup_nil]
  · intro c key data
    exact diskSet_get c key data
  · intro m url data hne
    constructor
    · intro hsmall hfit
      have hl := set_lookup m.memory (MediaCache.cacheKey url false) data hfit
      unfold MediaCache.store_full_media
      rw [if_pos hsmall]
      unfold MediaCache.get_full_media MemoryCache.get
      simp only [hl, Option.getD_some]
      rw [if_pos hne]
    · intro hbig2 hnone
      have hd := diskSet_get m.disk (MediaCache.cacheKey url false) data
      unfold MediaCache.store_full_media
      rw [if_neg hbig2]
      unfold MediaCache.get_full_media MemoryCache.get
      simp only [hnone, Option.getD_none]
      rw [if_neg (by simp)]
      simpa using hd

theorem claim2_witness :
    (((mkMemoryCache 1).set "k" [1, 2]).get "k").1 = some [1, 2] ∧
    (((mkMemoryCache 0).set "k" [1]).get "k").1 = none ∧
    (((mkDiskCache 1).set "k" [5] true).2.get "k").1 = some [5] ∧
    (((mkMediaCache 1 1).store_full_media "u" [9] true).2.get_full_media
        "u").1 = some [9] :=
  ⟨claim2_amended.1 _ "k" [1, 2] (by decide),
   claim2_amended.2.1 _ "k" [1] ⟨by decide, by decide, fun _ => rfl⟩
     (by decide) (by decide),
   claim2_amended.2.2.1 _ "k" [5],
   (claim2_amended.2.2.2 (mkMediaCache 1 1) "u" [9] (by decide)).1
     (by decide) (by decide)⟩

/-- C3 counterexample: with a 1 MB disk cache holding one 900000-byte
file under key `"k"` (a reachable state), a `set("k", 200000 bytes)`
whose temp-file write fails raises the cache error — but the previously
stored complete file is gone: `_cleanup_if_needed` ran before the write
and deleted it to make room, so it does not "remain unchanged". -/
theorem claim3_counterexample :
    dictLookup oldDisk.files "k"
        = some ⟨List.replicate 900000 1, 0⟩ ∧
      (oldDisk.set "k" (List.replicate 200000 2) false).1
        = Except.error MediaCacheError.failedToCache ∧
      dictLookup (oldDisk.set "k" (List.replicate 200000 2) false).2.files
        "k" = none := by
  have h900 : (List.replicate 900000 1 : Bytes).length = 900000 :=
    List.length_replicate _ _
  have h200 : (List.replicate 200000 2 : Bytes).length = 200000 :=
    List.length_replicate _ _
  have hod : oldDisk
      = { max_size := 1048576
          files := [("k", ⟨List.replicate 900000 1, 0⟩)]
          tmp := []
          clock := 1 } := by
    unfold oldDisk
    rw [diskSet_state_of_nil _ _ _ rfl]
    rfl
  rw [hod]
  refine ⟨rfl, rfl, ?_⟩
  exact diskSet_error_files_evicted _ "k" "k" ⟨List.replicate 900000 1, 0⟩
    (List.replicate 200000 2) rfl (by simp only [h200, h900]; norm_num)

/-- C3 amended: `DiskCache.set` is atomic with respect to readers and
crashes — in every observable intermediate state (before cleanup, after
cleanup, any partially written temp file, and after the rename) the final
cache filename holds either the complete previously stored content or the
complete new payload, never a partial write; on a write error the temp
file is removed and a cache error is raised, and the previously stored
file for the key is either byte-identical to before or absent (the
pre-write cleanup may have evicted it to free space — see the
counterexample); it is never partially overwritten. -/
theorem claim3_amended (c : DiskCache) (key : String) (data : Bytes)
    (hnd : (c.files.map Prod.fst).Nodup)
    (hndt : (c.tmp.map Prod.fst).Nodup) :
    (∀ s ∈ c.setCrashStates key data, ∀ f,
      dictLookup s.files key = some f →
      dictLookup c.files key = some f ∨ f.content = data) ∧
    ((c.set key data false).1 = Except.error MediaCacheError.failedToCache ∧
      dictLookup (c.set key data false).2.tmp key = none ∧
      (dictLookup (c.set key data false).2.files key
          = dictLookup c.files key ∨
        dictLookup (c.set key data false).2.files key = none)) := by
  obtain ⟨_, hsub, _, htmp, _⟩ := cleanup_spec c data.length hnd
  constructor
  · intro s hs f hf
    unfold DiskCache.setCrashStates at hs
    rcases List.mem_cons.mp hs with rfl | hs
    · exact Or.inl hf
    rcases List.mem_cons.mp hs with rfl | hs
    · exact Or.inl (dictLookup_of_sublist hsub hnd hf)
    rcases List.mem_append.mp hs with hs | hs
    · obtain ⟨n, _, rfl⟩ := List.mem_map.mp hs
      exact Or.inl (dictLookup_of_sublist hsub hnd hf)
    · obtain rfl := List.mem_singleton.mp hs
      rw [show (c.set key data true).2.files
          = dictInsert (c.cleanup_if_needed data.length).files key
              ⟨data, (c.cleanup_if_needed data.length).clock⟩ from rfl,
        dictLookup_dictInsert] at hf
      injection hf with hf
      exact Or.inr (by rw [← hf])
  · refine ⟨rfl, ?_, ?_⟩
    · show dictLookup
        (dictErase (c.cleanup_if_needed data.length).tmp key) key = none
      rw [htmp]
      exact dictLookup_dictErase_self hndt
    · show dictLookup (c.cleanup_if_needed data.length).files key
          = dictLookup c.files key ∨
        dictLookup (c.cleanup_if_needed data.length).files key = none
      cases hl : dictLookup (c.cleanup_if_needed data.length).files key with
      | none => exact Or.inr rfl
      | some f =>
          exact Or.inl ((dictLookup_of_sublist hsub hnd hl).symm ▸ rfl)

theorem claim3_witness :
    ((mkDiskCache 1).set "k" [3] false).1
        = Except.error MediaCacheError.failedToCache ∧
      dictLookup ((mkDiskCache 1).set "k" [3] false).2.tmp "k" = none :=
  ⟨(claim3_amended (mkDiskCache 1) "k" [3] (by decide) (by decide)).2.1,
   (claim3_amended (mkDiskCache 1) "k" [3] (by decide) (by decide)).2.2.1⟩

end Tootles
